import Mathlib

/-!
# Verification of the `lipsquirrel` semaphore primitives

Shallow embedding of the two semaphore classes of the repository
(`SimpleSemaphore` and `SimpleGeneratorSemaphore`): each keeps a JavaScript
number `count` of available slots (embedded as `Int`) and a FIFO list
`tasks` of pending resume callbacks.  A resume callback is identified here
by the `Nat` id of the acquisition request that created it; the callback
itself carries no data, only permission to proceed, so the id is a faithful
stand-in.

On top of the per-call transition functions we build an instrumented trace
semantics: a `Trace` carries the semaphore state together with ghost
observations (ids enqueued into the wait queue, ids woken by `release`, the
count of granted-but-not-released slots, and the numbers of `acquire` and
`release` calls), which the temporal and invariant claims are about.
-/

set_option autoImplicit false

/-- State shared by both semaphore classes: the wait queue `tasks` of
pending resume callbacks (in arrival order, identified by request id) and
the number `count` of available slots. -/
structure SemState where
  tasks : List Nat
  count : Int
  deriving Repr, DecidableEq

/-- Outcome of a single `acquire` call as seen by the caller. -/
inductive AcqOutcome where
  /-- A slot was available: the returned promise is already resolved and
  the caller proceeds immediately. -/
  | resolved : AcqOutcome
  /-- No slot was available: the resume callback was appended to the wait
  queue and the caller suspends until a future `release` invokes it. -/
  | queued : AcqOutcome
  deriving Repr, DecidableEq

namespace SimpleSemaphore

/-- `constructor(max)`: `this.tasks = []; this.count = max`. -/
def init (max : Int) : SemState :=
  { tasks := [], count := max }

/-- `SimpleSemaphore.acquire`: if `this.count > 0`, decrement `count` and
return a resolved promise; otherwise push the resume callback (request id
`req`) onto `this.tasks` and return a pending promise. -/
def acquire (s : SemState) (req : Nat) : SemState × AcqOutcome :=
  if 0 < s.count then
    ({ tasks := s.tasks, count := s.count - 1 }, AcqOutcome.resolved)
  else
    ({ tasks := s.tasks ++ [req], count := s.count }, AcqOutcome.queued)

/-- `SimpleSemaphore.release`: if `this.tasks.length > 0`, shift the head
callback off the queue and invoke it (returned as `some id`); otherwise
increment `this.count`. -/
def release (s : SemState) : SemState × Option Nat :=
  match s.tasks with
  | nextTask :: rest => ({ tasks := rest, count := s.count }, some nextTask)
  | [] => ({ tasks := [], count := s.count + 1 }, none)

end SimpleSemaphore

namespace SimpleGeneratorSemaphore

/-- `constructor(max)`: `this.tasks = []; this.count = max`. -/
def init (max : Int) : SemState :=
  { tasks := [], count := max }

/-- One grant cycle of the async generator `SimpleGeneratorSemaphore.acquire`
(the body of the `while (true)` loop, advanced once per intended
acquisition): if `this.count > 0`, decrement `count` and yield immediately;
otherwise push the resume callback onto `this.tasks` and await it, yielding
only once a `release` invokes it. -/
def acquireCycle (s : SemState) (req : Nat) : SemState × AcqOutcome :=
  if 0 < s.count then
    ({ tasks := s.tasks, count := s.count - 1 }, AcqOutcome.resolved)
  else
    ({ tasks := s.tasks ++ [req], count := s.count }, AcqOutcome.queued)

/-- `SimpleGeneratorSemaphore.release`: if `this.tasks.length > 0`, shift
the head callback off the queue and invoke it; otherwise increment
`this.count`. -/
def release (s : SemState) : SemState × Option Nat :=
  match s.tasks with
  | nextTask :: rest => ({ tasks := rest, count := s.count }, some nextTask)
  | [] => ({ tasks := [], count := s.count + 1 }, none)

end SimpleGeneratorSemaphore

/-- An external call on the semaphore: one `acquire` or one `release`. -/
inductive Op where
  | acq : Op
  | rel : Op
  deriving Repr, DecidableEq

/-- Instrumented trace state: the semaphore state together with ghost
observations of the run so far.  `nextId` numbers acquisition requests in
arrival order; `enqueued` lists the ids that entered the wait queue (in
arrival order); `woken` lists the ids whose resume callback `release`
invoked (in wake order); `holders` counts granted-but-not-released slots;
`nAcq` and `nRel` count the calls made. -/
structure Trace where
  sem : SemState
  nextId : Nat
  enqueued : List Nat
  woken : List Nat
  holders : Int
  nAcq : Nat
  nRel : Nat
  deriving Repr, DecidableEq

/-- Initial trace: a freshly constructed `SimpleSemaphore` and empty ghost
observations. -/
def Trace.start (max : Int) : Trace :=
  { sem := SimpleSemaphore.init max, nextId := 0, enqueued := [], woken := [],
    holders := 0, nAcq := 0, nRel := 0 }

/-- One step of the instrumented semantics for `SimpleSemaphore`.  An
`acquire` that finds a slot grants it immediately (one more holder); an
`acquire` that finds none enqueues the fresh request id.  A `release` that
finds a waiter wakes exactly the head (the releasing holder leaves and the
woken waiter becomes a holder, so `holders` is unchanged); a `release`
with an empty queue just ends one holder. -/
def stepS (t : Trace) : Op → Trace
  | Op.acq =>
    if 0 < t.sem.count then
      { t with sem := (SimpleSemaphore.acquire t.sem t.nextId).1,
               nextId := t.nextId + 1, holders := t.holders + 1,
               nAcq := t.nAcq + 1 }
    else
      { t with sem := (SimpleSemaphore.acquire t.sem t.nextId).1,
               nextId := t.nextId + 1, enqueued := t.enqueued ++ [t.nextId],
               nAcq := t.nAcq + 1 }
  | Op.rel =>
    match t.sem.tasks with
    | w :: _ =>
      { t with sem := (SimpleSemaphore.release t.sem).1,
               woken := t.woken ++ [w], nRel := t.nRel + 1 }
    | [] =>
      { t with sem := (SimpleSemaphore.release t.sem).1,
               holders := t.holders - 1, nRel := t.nRel + 1 }

/-- One step of the instrumented semantics for `SimpleGeneratorSemaphore`
(one grant cycle per `acquire`). -/
def stepG (t : Trace) : Op → Trace
  | Op.acq =>
    if 0 < t.sem.count then
      { t with sem := (SimpleGeneratorSemaphore.acquireCycle t.sem t.nextId).1,
               nextId := t.nextId + 1, holders := t.holders + 1,
               nAcq := t.nAcq + 1 }
    else
      { t with sem := (SimpleGeneratorSemaphore.acquireCycle t.sem t.nextId).1,
               nextId := t.nextId + 1, enqueued := t.enqueued ++ [t.nextId],
               nAcq := t.nAcq + 1 }
  | Op.rel =>
    match t.sem.tasks with
    | w :: _ =>
      { t with sem := (SimpleGeneratorSemaphore.release t.sem).1,
               woken := t.woken ++ [w], nRel := t.nRel + 1 }
    | [] =>
      { t with sem := (SimpleGeneratorSemaphore.release t.sem).1,
               holders := t.holders - 1, nRel := t.nRel + 1 }

/-- Run a list of calls from a trace state (`SimpleSemaphore`). -/
def runFrom : Trace → List Op → Trace
  | t, [] => t
  | t, op :: ops => runFrom (stepS t op) ops

/-- Run a list of calls on a freshly constructed `SimpleSemaphore`. -/
def runS (max : Int) (ops : List Op) : Trace :=
  runFrom (Trace.start max) ops

/-- Run a list of calls from a trace state (`SimpleGeneratorSemaphore`). -/
def runFromG : Trace → List Op → Trace
  | t, [] => t
  | t, op :: ops => runFromG (stepG t op) ops

/-- Run a list of calls on a freshly constructed `SimpleGeneratorSemaphore`. -/
def runG (max : Int) (ops : List Op) : Trace :=
  runFromG (Trace.start max) ops

/-- `noOverRelease t ops` holds when, along the run of `ops` from `t`,
every `release` call happens while at least one granted slot is
outstanding — i.e. each release matches a prior grant. -/
def noOverRelease : Trace → List Op → Bool
  | _, [] => true
  | t, Op.acq :: ops => noOverRelease (stepS t Op.acq) ops
  | t, Op.rel :: ops => decide (1 ≤ t.holders) && noOverRelease (stepS t Op.rel) ops

/-! ## Helper lemmas: single-step preservation -/

theorem Trace.start_holders (max : Int) : (Trace.start max).holders = 0 := rfl

theorem Trace.start_count (max : Int) : (Trace.start max).sem.count = max := rfl

theorem Trace.start_tasks (max : Int) : (Trace.start max).sem.tasks = [] := rfl

theorem Trace.start_nAcq (max : Int) : (Trace.start max).nAcq = 0 := rfl

theorem Trace.start_nRel (max : Int) : (Trace.start max).nRel = 0 := rfl

/-- The promise-style and iterator-style transition functions coincide
step for step. -/
theorem stepG_eq_stepS (t : Trace) (op : Op) : stepG t op = stepS t op := by
  cases op <;> rfl

/-- Running the iterator-style semantics is the same as running the
promise-style semantics. -/
theorem runFromG_eq_runFrom (ops : List Op) (t : Trace) :
    runFromG t ops = runFrom t ops := by
  induction ops generalizing t with
  | nil => rfl
  | cons op ops ih => simp [runFrom, runFromG, stepG_eq_stepS, ih]

theorem runG_eq_runS (max : Int) (ops : List Op) : runG max ops = runS max ops := by
  simp [runG, runS, runFromG_eq_runFrom]

/-- Each step conserves `holders + count`: an immediate grant trades a slot
for a holder, a wake trades the releaser for the woken waiter, an
empty-queue release trades a holder for a slot. -/
theorem stepS_sum (t : Trace) (op : Op) :
    (stepS t op).holders + (stepS t op).sem.count = t.holders + t.sem.count := by
  cases op with
  | acq =>
    by_cases h : 0 < t.sem.count <;>
      simp [stepS, SimpleSemaphore.acquire, h]
  | rel =>
    rcases ht : t.sem.tasks with _ | ⟨w, rest⟩ <;>
      simp [stepS, SimpleSemaphore.release, ht]

theorem runFrom_sum (ops : List Op) (t : Trace) :
    (runFrom t ops).holders + (runFrom t ops).sem.count = t.holders + t.sem.count := by
  induction ops generalizing t with
  | nil => rfl
  | cons op ops ih => rw [runFrom, ih, stepS_sum]

/-- Each step conserves `holders + |tasks| - nAcq + nRel`: every `acquire`
creates either a holder or a queued waiter, and every `release` removes
either a holder (empty queue) or, on a wake, a waiter while swapping the
releasing holder for the woken one. -/
theorem stepS_bal (t : Trace) (op : Op) :
    (stepS t op).holders + ((stepS t op).sem.tasks.length : Int)
        - (stepS t op).nAcq + (stepS t op).nRel
      = t.holders + (t.sem.tasks.length : Int) - t.nAcq + t.nRel := by
  cases op with
  | acq =>
    by_cases h : 0 < t.sem.count <;>
      simp [stepS, SimpleSemaphore.acquire, h] <;> ring
  | rel =>
    rcases ht : t.sem.tasks with _ | ⟨w, rest⟩ <;>
      simp [stepS, SimpleSemaphore.release, ht] <;> ring

theorem runFrom_bal (ops : List Op) (t : Trace) :
    (runFrom t ops).holders + ((runFrom t ops).sem.tasks.length : Int)
        - (runFrom t ops).nAcq + (runFrom t ops).nRel
      = t.holders + (t.sem.tasks.length : Int) - t.nAcq + t.nRel := by
  induction ops generalizing t with
  | nil => rfl
  | cons op ops ih => rw [runFrom, ih, stepS_bal]

/-- Each step preserves the queue-accounting equation `enqueued = woken ++
tasks`: ids are enqueued only at the tail of `tasks` and woken only from
its head. -/
theorem stepS_fifo (t : Trace) (op : Op)
    (h : t.enqueued = t.woken ++ t.sem.tasks) :
    (stepS t op).enqueued = (stepS t op).woken ++ (stepS t op).sem.tasks := by
  cases op with
  | acq =>
    by_cases hc : 0 < t.sem.count <;>
      simp [stepS, SimpleSemaphore.acquire, hc, h]
  | rel =>
    rcases ht : t.sem.tasks with _ | ⟨w, rest⟩ <;>
      simp [stepS, SimpleSemaphore.release, ht, ht ▸ h]

theorem runFrom_fifo (ops : List Op) (t : Trace)
    (h : t.enqueued = t.woken ++ t.sem.tasks) :
    (runFrom t ops).enqueued = (runFrom t ops).woken ++ (runFrom t ops).sem.tasks := by
  induction ops generalizing t with
  | nil => exact h
  | cons op ops ih => exact ih _ (stepS_fifo t op h)

/-- Each step keeps `count` non-negative: `acquire` decrements only a
strictly positive `count`, and `release` never decrements it. -/
theorem stepS_count_nonneg (t : Trace) (op : Op) (h : 0 ≤ t.sem.count) :
    0 ≤ (stepS t op).sem.count := by
  cases op with
  | acq =>
    by_cases hc : 0 < t.sem.count <;>
      simp [stepS, SimpleSemaphore.acquire, hc] <;> omega
  | rel =>
    rcases ht : t.sem.tasks with _ | ⟨w, rest⟩ <;>
      simp [stepS, SimpleSemaphore.release, ht] <;> omega

theorem runFrom_count_nonneg (ops : List Op) (t : Trace) (h : 0 ≤ t.sem.count) :
    0 ≤ (runFrom t ops).sem.count := by
  induction ops generalizing t with
  | nil => exact h
  | cons op ops ih => exact ih _ (stepS_count_nonneg t op h)

/-- Each step preserves the joint invariant `0 ≤ count ∧ (tasks ≠ [] →
count = 0)`: a waiter is enqueued only when `count` is exactly `0`, and a
wake leaves `count` at `0` while the queue stays non-trivially consumed. -/
theorem stepS_queue_inv (t : Trace) (op : Op)
    (h : 0 ≤ t.sem.count ∧ (t.sem.tasks ≠ [] → t.sem.count = 0)) :
    0 ≤ (stepS t op).sem.count ∧
      ((stepS t op).sem.tasks ≠ [] → (stepS t op).sem.count = 0) := by
  obtain ⟨h0, h1⟩ := h
  cases op with
  | acq =>
    by_cases hc : 0 < t.sem.count
    · have hnil : t.sem.tasks = [] := by
        by_contra hne
        exact absurd (h1 hne) (by omega)
      simp [stepS, SimpleSemaphore.acquire, hc, hnil]
      omega
    · simp [stepS, SimpleSemaphore.acquire, hc]
      omega
  | rel =>
    rcases ht : t.sem.tasks with _ | ⟨w, rest⟩
    · simp [stepS, SimpleSemaphore.release, ht]
      omega
    · have hz : t.sem.count = 0 := h1 (by simp [ht])
      simp [stepS, SimpleSemaphore.release, ht, hz]

theorem runFrom_queue_inv (ops : List Op) (t : Trace)
    (h : 0 ≤ t.sem.count ∧ (t.sem.tasks ≠ [] → t.sem.count = 0)) :
    0 ≤ (runFrom t ops).sem.count ∧
      ((runFrom t ops).sem.tasks ≠ [] → (runFrom t ops).sem.count = 0) := by
  induction ops generalizing t with
  | nil => exact h
  | cons op ops ih => exact ih _ (stepS_queue_inv t op h)

/-- Along an over-release-free run, the count of outstanding holders stays
non-negative: only an empty-queue `release` decrements it, and
`noOverRelease` requires a holder to exist at every `release`. -/
theorem runFrom_holders_nonneg (ops : List Op) (t : Trace) (h : 0 ≤ t.holders)
    (hn : noOverRelease t ops = true) : 0 ≤ (runFrom t ops).holders := by
  induction ops generalizing t with
  | nil => exact h
  | cons op ops ih =>
    cases op with
    | acq =>
      rw [noOverRelease] at hn
      refine ih (stepS t Op.acq) ?_ hn
      by_cases hc : 0 < t.sem.count <;>
        simp [stepS, SimpleSemaphore.acquire, hc] <;> omega
    | rel =>
      rw [noOverRelease, Bool.and_eq_true, decide_eq_true_eq] at hn
      refine ih (stepS t Op.rel) ?_ hn.2
      rcases ht : t.sem.tasks with _ | ⟨w, rest⟩ <;>
        simp [stepS, SimpleSemaphore.release, ht] <;> omega

/-! ## Claim theorems -/

/-- C1: grants are issued to queued waiters in strict FIFO order of
arrival at `acquire`, for both `SimpleSemaphore` and
`SimpleGeneratorSemaphore`: after any sequence of calls, the arrival-order
list of enqueued request ids is exactly the wake-order list of granted ids
followed by the still-pending queue.  Hence the k-th waiter woken is the
k-th waiter enqueued, and while an earlier-queued waiter is still pending
(sitting in `tasks`), no later-queued waiter has been granted. -/
theorem semaphore_fifo_grants (max : Int) (ops : List Op) :
    (runS max ops).enqueued = (runS max ops).woken ++ (runS max ops).sem.tasks ∧
    (runG max ops).enqueued = (runG max ops).woken ++ (runG max ops).sem.tasks := by
  have h : (Trace.start max).enqueued =
      (Trace.start max).woken ++ (Trace.start max).sem.tasks := rfl
  exact ⟨runFrom_fifo ops _ h, by rw [runG_eq_runS]; exact runFrom_fifo ops _ h⟩

/-- C2: starting from a semaphore constructed with positive capacity, if
`release` is never called more times than there are outstanding grants,
the number of granted-but-not-released slots never exceeds the capacity. -/
theorem semaphore_capacity_bound (max : Int) (ops : List Op)
    (hpos : 0 < max)
    (_hno : noOverRelease (Trace.start max) ops = true) :
    (runS max ops).holders ≤ max := by
  have hsum := runFrom_sum ops (Trace.start max)
  have hc := runFrom_count_nonneg ops (Trace.start max)
    (by rw [Trace.start_count]; omega)
  rw [Trace.start_holders, Trace.start_count] at hsum
  simp only [runS]
  omega

/-- Witness for C2 at capacity `1` and the call sequence
`acquire, acquire, release, release`. -/
theorem semaphore_capacity_bound_witness :
    (0 : Int) < 1 ∧
    noOverRelease (Trace.start 1) [Op.acq, Op.acq, Op.rel, Op.rel] = true ∧
    (runS 1 [Op.acq, Op.acq, Op.rel, Op.rel]).holders ≤ 1 :=
  ⟨by decide, by decide,
    semaphore_capacity_bound 1 [Op.acq, Op.acq, Op.rel, Op.rel] (by decide) (by decide)⟩

/-- C3: on a state with a non-empty wait queue, a single `release` removes
exactly the head request, invokes its resume capability (`some w`), leaves
every other waiter in place and in order, and leaves `count` unchanged —
the slot transfers without ever being reflected in `available`.  Holds for
both semaphore classes. -/
theorem release_wakes_head_only (c : Int) (w : Nat) (rest : List Nat) :
    SimpleSemaphore.release { tasks := w :: rest, count := c }
        = ({ tasks := rest, count := c }, some w) ∧
    SimpleGeneratorSemaphore.release { tasks := w :: rest, count := c }
        = ({ tasks := rest, count := c }, some w) :=
  ⟨rfl, rfl⟩

/-- C4: `acquire` on a state with `count > 0` decrements `count` by one,
leaves the queue untouched and resolves immediately; on a state with no
available slot it leaves `count` untouched, appends the fresh request to
the tail of the wait queue and leaves the caller suspended (`queued`) until
that exact request is granted by a future `release` (the FIFO accounting of
`semaphore_fifo_grants` ties the wake to the same id).  Holds for both
semaphore classes. -/
theorem acquire_branch_behavior (s : SemState) (req : Nat) :
    (0 < s.count →
      SimpleSemaphore.acquire s req
          = ({ tasks := s.tasks, count := s.count - 1 }, AcqOutcome.resolved) ∧
      SimpleGeneratorSemaphore.acquireCycle s req
          = ({ tasks := s.tasks, count := s.count - 1 }, AcqOutcome.resolved)) ∧
    (¬ 0 < s.count →
      SimpleSemaphore.acquire s req
          = ({ tasks := s.tasks ++ [req], count := s.count }, AcqOutcome.queued) ∧
      SimpleGeneratorSemaphore.acquireCycle s req
          = ({ tasks := s.tasks ++ [req], count := s.count }, AcqOutcome.queued)) := by
  constructor
  · intro h
    constructor <;> simp [SimpleSemaphore.acquire, SimpleGeneratorSemaphore.acquireCycle, h]
  · intro h
    constructor <;> simp [SimpleSemaphore.acquire, SimpleGeneratorSemaphore.acquireCycle, h]

/-- Witness for C4: the available branch at `count = 2` and the queueing
branch at `count = 0`. -/
theorem acquire_branch_behavior_witness :
    SimpleSemaphore.acquire { tasks := [], count := 2 } 0
        = ({ tasks := [], count := 2 - 1 }, AcqOutcome.resolved) ∧
    SimpleSemaphore.acquire { tasks := [], count := 0 } 5
        = ({ tasks := [] ++ [5], count := 0 }, AcqOutcome.queued) :=
  ⟨((acquire_branch_behavior { tasks := [], count := 2 } 0).1 (by decide)).1,
   ((acquire_branch_behavior { tasks := [], count := 0 } 5).2 (by decide)).1⟩

/-- C5: a `release` on an empty wait queue increments `count` by one,
unconditionally — there is no validation against outstanding grants and no
cap at the capacity.  In particular a single `release` on a freshly
constructed semaphore (zero outstanding grants) drives `count` to
`max + 1`, past the capacity, with no error. -/
theorem release_empty_queue_increments (c max : Int) :
    SimpleSemaphore.release { tasks := [], count := c }
        = ({ tasks := [], count := c + 1 }, none) ∧
    SimpleGeneratorSemaphore.release { tasks := [], count := c }
        = ({ tasks := [], count := c + 1 }, none) ∧
    (runS max [Op.rel]).sem.count = max + 1 ∧ max < (runS max [Op.rel]).sem.count :=
  ⟨rfl, rfl, rfl, by simp [runS, runFrom, stepS, Trace.start, SimpleSemaphore.init,
    SimpleSemaphore.release]⟩

/-- C6: in every state reachable by any call sequence from a semaphore
constructed with non-negative capacity, the wait queue is non-empty only
when `count = 0`; equivalently, whenever `count > 0` the wait queue is
empty.  (Both `acquire` and `release` preserve the strengthened invariant
`0 ≤ count ∧ (tasks ≠ [] → count = 0)`, see `stepS_queue_inv`.) -/
theorem queue_nonempty_only_when_exhausted (max : Int) (ops : List Op)
    (h : 0 ≤ max) :
    ((runS max ops).sem.tasks ≠ [] → (runS max ops).sem.count = 0) ∧
    (0 < (runS max ops).sem.count → (runS max ops).sem.tasks = []) := by
  have hinv := runFrom_queue_inv ops (Trace.start max)
    ⟨by simpa [Trace.start, SimpleSemaphore.init] using h,
     by simp [Trace.start, SimpleSemaphore.init]⟩
  simp only [runS]
  refine ⟨hinv.2, ?_⟩
  intro hc
  by_contra hne
  have := hinv.2 hne
  omega

/-- Witness for C6 at capacity `0` after one `acquire` (queue `[0]`,
`count = 0`). -/
theorem queue_nonempty_only_when_exhausted_witness :
    (0 : Int) ≤ 0 ∧
    ((runS 0 [Op.acq]).sem.tasks ≠ [] → (runS 0 [Op.acq]).sem.count = 0) ∧
    (0 < (runS 0 [Op.acq]).sem.count → (runS 0 [Op.acq]).sem.tasks = []) :=
  ⟨by decide, (queue_nonempty_only_when_exhausted 0 [Op.acq] (by decide)).1,
   (queue_nonempty_only_when_exhausted 0 [Op.acq] (by decide)).2⟩

/-- C7: one grant cycle of the iterator-style `acquire` is behaviorally
equivalent to the promise-style `acquire`, and the two `release` (and
constructor) implementations coincide: from equal states both perform the
same counter and queue transitions and grant under the same conditions, so
whole runs of the two classes coincide. -/
theorem generator_equiv_promise :
    (∀ (s : SemState) (req : Nat),
        SimpleGeneratorSemaphore.acquireCycle s req = SimpleSemaphore.acquire s req) ∧
    (∀ s : SemState, SimpleGeneratorSemaphore.release s = SimpleSemaphore.release s) ∧
    (∀ max : Int, SimpleGeneratorSemaphore.init max = SimpleSemaphore.init max) ∧
    (∀ (max : Int) (ops : List Op), runG max ops = runS max ops) :=
  ⟨fun _ _ => rfl, fun _ => rfl, fun _ => rfl, runG_eq_runS⟩

/-- C8: after any balanced, correctly paired call sequence (as many
releases as acquires, every release matching a prior grant), the available
count returns to its original value and the wait queue is empty. -/
theorem balanced_round_trip (max : Int) (ops : List Op)
    (hno : noOverRelease (Trace.start max) ops = true)
    (hbal : (runS max ops).nAcq = (runS max ops).nRel) :
    (runS max ops).sem.count = max ∧ (runS max ops).sem.tasks = [] := by
  have hsum := runFrom_sum ops (Trace.start max)
  have hbalI := runFrom_bal ops (Trace.start max)
  have hh := runFrom_holders_nonneg ops (Trace.start max)
    (by rw [Trace.start_holders]) hno
  rw [Trace.start_holders, Trace.start_count] at hsum
  rw [Trace.start_holders, Trace.start_tasks, Trace.start_nAcq, Trace.start_nRel] at hbalI
  simp only [List.length_nil] at hbalI
  simp only [runS] at hbal ⊢
  have hlen : (runFrom (Trace.start max) ops).sem.tasks.length = 0 := by omega
  exact ⟨by omega, List.length_eq_zero.mp hlen⟩

/-- Witness for C8 at capacity `1` and the balanced sequence
`acquire, acquire, release, release`. -/
theorem balanced_round_trip_witness :
    noOverRelease (Trace.start 1) [Op.acq, Op.acq, Op.rel, Op.rel] = true ∧
    (runS 1 [Op.acq, Op.acq, Op.rel, Op.rel]).nAcq
        = (runS 1 [Op.acq, Op.acq, Op.rel, Op.rel]).nRel ∧
    (runS 1 [Op.acq, Op.acq, Op.rel, Op.rel]).sem.count = 1 ∧
    (runS 1 [Op.acq, Op.acq, Op.rel, Op.rel]).sem.tasks = [] :=
  ⟨by decide, by decide,
    (balanced_round_trip 1 [Op.acq, Op.acq, Op.rel, Op.rel] (by decide) (by decide)).1,
    (balanced_round_trip 1 [Op.acq, Op.acq, Op.rel, Op.rel] (by decide) (by decide)).2⟩

/-- C9: every single `acquire` call and every single `release` call
mutates at most one of the two state fields `count` and `tasks`, leaving
the other unchanged, for both semaphore classes. -/
theorem single_call_frame (s : SemState) (req : Nat) :
    ((SimpleSemaphore.acquire s req).1.tasks = s.tasks ∨
      (SimpleSemaphore.acquire s req).1.count = s.count) ∧
    ((SimpleSemaphore.release s).1.tasks = s.tasks ∨
      (SimpleSemaphore.release s).1.count = s.count) ∧
    ((SimpleGeneratorSemaphore.acquireCycle s req).1.tasks = s.tasks ∨
      (SimpleGeneratorSemaphore.acquireCycle s req).1.count = s.count) ∧
    ((SimpleGeneratorSemaphore.release s).1.tasks = s.tasks ∨
      (SimpleGeneratorSemaphore.release s).1.count = s.count) := by
  refine ⟨?_, ?_, ?_, ?_⟩
  · by_cases h : 0 < s.count <;> simp [SimpleSemaphore.acquire, h]
  · rcases ht : s.tasks with _ | ⟨w, rest⟩ <;> simp [SimpleSemaphore.release, ht]
  · by_cases h : 0 < s.count <;> simp [SimpleGeneratorSemaphore.acquireCycle, h]
  · rcases ht : s.tasks with _ | ⟨w, rest⟩ <;> simp [SimpleGeneratorSemaphore.release, ht]

/-- C10: for a semaphore constructed with non-negative `max`, the
available count never becomes negative under any call sequence, including
over-release, for both classes; moreover a single `acquire` decrements the
count only when it is strictly positive, and a single `release` never
decrements it. -/
theorem count_never_negative (max : Int) (ops : List Op) (h : 0 ≤ max) :
    0 ≤ (runS max ops).sem.count ∧ 0 ≤ (runG max ops).sem.count ∧
    (∀ (s : SemState) (req : Nat),
        (SimpleSemaphore.acquire s req).1.count < s.count → 0 < s.count) ∧
    (∀ s : SemState, s.count ≤ (SimpleSemaphore.release s).1.count) := by
  have hc : 0 ≤ (runS max ops).sem.count :=
    runFrom_count_nonneg ops (Trace.start max)
      (by simpa [Trace.start, SimpleSemaphore.init] using h)
  refine ⟨hc, by rwa [runG_eq_runS], ?_, ?_⟩
  · intro s req hlt
    by_contra hns
    simp [SimpleSemaphore.acquire, hns] at hlt
  · intro s
    rcases ht : s.tasks with _ | ⟨w, rest⟩ <;>
      simp [SimpleSemaphore.release, ht]

/-- Witness for C10 at capacity `0` with an over-release followed by an
`acquire`. -/
theorem count_never_negative_witness :
    (0 : Int) ≤ 0 ∧
    0 ≤ (runS 0 [Op.rel, Op.acq]).sem.count ∧
    0 ≤ (runG 0 [Op.rel, Op.acq]).sem.count :=
  ⟨by decide, (count_never_negative 0 [Op.rel, Op.acq] (by decide)).1,
   (count_never_negative 0 [Op.rel, Op.acq] (by decide)).2.1⟩
